import Mathlib

/-!
Verification of the playback queue and transport state machine of the
somesonic music player (`AudioPlayer` in the audio player module).

The embedding models the mutable `AudioPlayer` instance as a record
`PlayerState`; every method of the class becomes a function from the
state (plus the parameters the method reads from the outside world:
the random source behind `Math.random`, and the eventual outcome of the
asynchronous `audio.play()` call) to a new state together with the list
of sink commands and notifier callbacks it emits, in emission order.
-/

namespace Somesonic

/-- A track record. Equality of tracks in the player is by `id`; the
`streamUrl` field is `none` when the JS field is absent or falsy. -/
structure Track where
  id : Nat
  streamUrl : Option String
deriving DecidableEq, Repr, Inhabited

/-- The repeat field of the player: the JS strings `'none'`, `'one'`, `'all'`. -/
inductive RepeatMode where
  | none
  | one
  | all
deriving DecidableEq, Repr

/-- Sink commands and notifier callbacks emitted by an operation, in order.
`sinkLoad url` is the assignment `audio.src = url`; `sinkPlay` is the call
`audio.play()`; `sinkSeek t` is the assignment `audio.currentTime = t`;
`trackChanged`, `ended` and `error` are the `onTrackChange`, `onEnded` and
`onError` callback slots (`error` carries an opaque detail). -/
inductive Event where
  | sinkLoad (url : String)
  | sinkPlay
  | sinkSeek (t : ℚ)
  | trackChanged (t : Track)
  | ended
  | error (detail : Nat)
deriving DecidableEq, Repr

/-- The state of one `AudioPlayer` instance together with the observable
state of its media sink (the `audio` element). `currentIndex = -1` encodes
the "no track selected" state, as in the source. The source field named
`repeat` is called `repeatMode` here because `repeat` is reserved in Lean. -/
structure PlayerState where
  queue : List Track
  shuffledQueue : List Track
  currentIndex : Int
  isPlaying : Bool
  volume : ℚ
  repeatMode : RepeatMode
  shuffle : Bool
  audioCurrentTime : ℚ
  audioSrc : Option String
  audioVolume : ℚ
deriving DecidableEq, Repr

/-- The constructor-time state of the player (queue empty, nothing selected). -/
def initialPlayer : PlayerState :=
  { queue := []
    shuffledQueue := []
    currentIndex := -1
    isPlaying := false
    volume := 1
    repeatMode := RepeatMode.none
    shuffle := false
    audioCurrentTime := 0
    audioSrc := Option.none
    audioVolume := 1 }

/-- JavaScript `Array.prototype.findIndex`: index of the first element
satisfying the predicate, or `-1` when none does. -/
def jsFindIndex (p : Track → Bool) : List Track → Int
  | [] => -1
  | x :: xs =>
    if p x then 0
    else
      let r := jsFindIndex p xs
      if r = -1 then -1 else r + 1

/-- The destructuring swap `[a[i], a[j]] = [a[j], a[i]]` on a list: identity
when either index is out of bounds (in the source both always are in bounds). -/
def listSwap (l : List Track) (i j : Nat) : List Track :=
  match l[i]?, l[j]? with
  | some a, some b => (l.set i b).set j a
  | _, _ => l

/-- The loop of `_shuffleArray`, counting the loop variable `i` down from the
argument to `1`: at each `i` it swaps position `i` with position `rand i`.
In the source `rand i = Math.floor(Math.random() * (i + 1))`, which always
lies in `0..i`; the model takes the chosen indices as an arbitrary function. -/
def shuffleStep (rand : Nat → Nat) : Nat → List Track → List Track
  | 0, l => l
  | k + 1, l => shuffleStep rand k (listSwap l (k + 1) (rand (k + 1)))

/-- `_shuffleArray(array)`: Fisher-Yates, `for (i = length-1; i > 0; i--)`. -/
def shuffleArray (rand : Nat → Nat) (l : List Track) : List Track :=
  shuffleStep rand (l.length - 1) l

/-- `getQueue()`: the active ordering. -/
def getQueue (s : PlayerState) : List Track :=
  if s.shuffle then s.shuffledQueue else s.queue

/-- `getCurrentTrack()`: the track at `currentIndex` in the active ordering,
or `none` when the index is out of range. -/
def getCurrentTrack (s : PlayerState) : Option Track :=
  if 0 ≤ s.currentIndex ∧ s.currentIndex < ((getQueue s).length : Int) then
    (getQueue s)[s.currentIndex.toNat]?
  else Option.none

/-- `setQueue(tracks)`. -/
def setQueue (s : PlayerState) (tracks : List Track) (rand : Nat → Nat) :
    PlayerState :=
  { s with
    queue := tracks
    shuffledQueue := shuffleArray rand tracks
    currentIndex := -1 }

/-- `addToQueue(tracks)`. -/
def addToQueue (s : PlayerState) (tracks : List Track) (rand : Nat → Nat) :
    PlayerState :=
  { s with
    queue := s.queue ++ tracks
    shuffledQueue := shuffleArray rand (s.queue ++ tracks) }

/-- `clearQueue()`. -/
def clearQueue (s : PlayerState) : PlayerState :=
  { s with queue := [], shuffledQueue := [], currentIndex := -1 }

/-- `playIndex(index)`. `outcome` is the eventual result of the awaited
`audio.play()` call: `none` for success (the try block completes and
`onTrackChange` fires), `some d` for a rejection caught by the catch block
(`onError` fires with detail `d`). The guard and the assignment
`currentIndex = index` happen before any sink interaction. -/
def playIndex (s : PlayerState) (index : Int) (outcome : Option Nat) :
    PlayerState × List Event :=
  let q := getQueue s
  if index < 0 ∨ (q.length : Int) ≤ index then (s, [])
  else
    let s1 := { s with currentIndex := index }
    match q[index.toNat]? with
    | Option.none => (s1, [])
    | some track =>
      match track.streamUrl with
      | Option.none => (s1, [])
      | some url =>
        let s2 := { s1 with audioSrc := some url }
        match outcome with
        | Option.none =>
          ({ s2 with isPlaying := true },
            [Event.sinkLoad url, Event.sinkPlay, Event.trackChanged track])
        | some d =>
          (s2, [Event.sinkLoad url, Event.sinkPlay, Event.error d])

/-- `play()`: delegates to `playIndex(0)` when nothing is selected and the
queue is non-empty, else resumes the sink (a resume failure is only logged:
no callback fires and no state changes). -/
def play (s : PlayerState) (outcome : Option Nat) : PlayerState × List Event :=
  if s.currentIndex < 0 ∧ 0 < s.queue.length then
    playIndex s 0 outcome
  else
    match outcome with
    | Option.none => ({ s with isPlaying := true }, [Event.sinkPlay])
    | some _ => (s, [Event.sinkPlay])

/-- `hasNext()`. -/
def hasNext (s : PlayerState) : Bool :=
  s.currentIndex < ((getQueue s).length : Int) - 1

/-- `hasPrevious()`. -/
def hasPrevious (s : PlayerState) : Bool :=
  0 < s.currentIndex

/-- `next()`. -/
def next (s : PlayerState) (outcome : Option Nat) : PlayerState × List Event :=
  if hasNext s then playIndex s (s.currentIndex + 1) outcome else (s, [])

/-- `previous()`: restart when more than 3 seconds in, else step back. -/
def previous (s : PlayerState) (outcome : Option Nat) :
    PlayerState × List Event :=
  if 3 < s.audioCurrentTime then
    ({ s with audioCurrentTime := 0 }, [Event.sinkSeek 0])
  else if hasPrevious s then playIndex s (s.currentIndex - 1) outcome
  else (s, [])

/-- `setVolume(volume)`. -/
def setVolume (s : PlayerState) (v : ℚ) : PlayerState :=
  { s with volume := max 0 (min 1 v), audioVolume := max 0 (min 1 v) }

/-- `setRepeat(mode)`. -/
def setRepeat (s : PlayerState) (mode : RepeatMode) : PlayerState :=
  { s with repeatMode := mode }

/-- `toggleShuffle()`. The source flips `this.shuffle` first and only then
reads `this.getCurrentTrack()`, so on enabling, `current` is read from the
stale `shuffledQueue`, and on disabling it is read from the canonical
`queue`, in both cases at an index that referred to the other ordering. -/
def toggleShuffle (s : PlayerState) (rand : Nat → Nat) : PlayerState :=
  let s1 := { s with shuffle := !s.shuffle }
  if s1.shuffle then
    let current := getCurrentTrack s1
    let s2 := { s1 with shuffledQueue := shuffleArray rand s1.queue }
    match current with
    | Option.none => s2
    | some cur =>
      let idx := jsFindIndex (fun t => t.id == cur.id) s2.shuffledQueue
      let s3 :=
        if 0 < idx then
          { s2 with shuffledQueue := listSwap s2.shuffledQueue 0 idx.toNat }
        else s2
      { s3 with currentIndex := 0 }
  else
    match getCurrentTrack s1 with
    | Option.none => s1
    | some cur =>
      { s1 with currentIndex := jsFindIndex (fun t => t.id == cur.id) s1.queue }

/-- `_handleEnded()`: the reaction to the ended notification of the sink.
`onEnded` fires first, then the repeat/advance logic runs. -/
def handleEnded (s : PlayerState) (outcome : Option Nat) :
    PlayerState × List Event :=
  if s.repeatMode = RepeatMode.one then
    let s1 := { s with audioCurrentTime := 0 }
    let r := play s1 outcome
    (r.1, Event.ended :: Event.sinkSeek 0 :: r.2)
  else if hasNext s then
    let r := next s outcome
    (r.1, Event.ended :: r.2)
  else if s.repeatMode = RepeatMode.all ∧ 0 < s.queue.length then
    let r := playIndex s 0 outcome
    (r.1, Event.ended :: r.2)
  else (s, [Event.ended])

/-- The error listener installed by `_setupEventListeners`: it only logs and
fires `onError` with the event detail; it touches no player state. -/
def handleError (s : PlayerState) (detail : Nat) : PlayerState × List Event :=
  (s, [Event.error detail])

/-- The two orderings have the same length (a consequence of the §3 invariant
that `shuffled` is a permutation of `canonical`; it holds in every reachable
state). -/
def SameLen (s : PlayerState) : Prop :=
  s.shuffledQueue.length = s.queue.length

/-- The §3 index invariant: `activeIndex` is `none` (encoded `-1`) or a valid
index into the active ordering. -/
def IndexOK (s : PlayerState) : Prop :=
  s.currentIndex = -1 ∨
    (0 ≤ s.currentIndex ∧ s.currentIndex < ((getQueue s).length : Int))

/-- The conjunction of the state invariants carried by every reachable state. -/
def Inv (s : PlayerState) : Prop :=
  IndexOK s ∧ SameLen s

/-- Concrete tracks for counterexamples and witnesses. -/
def trackA : Track := ⟨0, some "u0"⟩

def trackB : Track := ⟨1, some "u1"⟩

def trackC : Track := ⟨2, some "u2"⟩

/-- The identity choice function: `shuffleArray randId` performs only
self-swaps, so it returns its input unchanged. -/
def randId : Nat → Nat := fun i => i

/-- Player with canonical queue `[A, B]`, stale shuffled ordering `[B, A]`,
shuffle off, track `A` selected at canonical index `0`. -/
def stateSelA : PlayerState :=
  { initialPlayer with
    queue := [trackA, trackB]
    shuffledQueue := [trackB, trackA]
    currentIndex := 0 }

/-- Player with canonical queue `[A, B]`, shuffled ordering `[A, B]`,
shuffle off, track `B` selected at canonical index `1`. -/
def stateSelB : PlayerState :=
  { initialPlayer with
    queue := [trackA, trackB]
    shuffledQueue := [trackA, trackB]
    currentIndex := 1 }

/-! ### Permutation and bound lemmas for the list helpers -/

/-- Writing `a` at position `m` and prepending the old value `b` permutes
`a :: t`. -/
theorem cons_set_perm (a : Track) : ∀ (t : List Track) (m : Nat) (b : Track),
    t[m]? = some b → (b :: t.set m a).Perm (a :: t)
  | [], m, b => by simp
  | x :: t, 0, b => by
    intro h
    simp only [List.getElem?_cons_zero, Option.some.injEq] at h
    subst h
    simpa using List.Perm.swap a x t
  | x :: t, m + 1, b => by
    intro h
    simp only [List.getElem?_cons_succ] at h
    have ih := cons_set_perm a t m b h
    have e1 : (x :: t).set (m + 1) a = x :: t.set m a := by simp
    rw [e1]
    exact (List.Perm.swap x b (t.set m a)).trans
      ((ih.cons x).trans (List.Perm.swap a x t))

/-- The double `set` of a swap is a permutation. -/
theorem set_set_perm : ∀ (l : List Track) (i j : Nat) (a b : Track),
    l[i]? = some a → l[j]? = some b → ((l.set i b).set j a).Perm l
  | [], _, _, _, _ => by simp
  | x :: t, 0, 0, a, b => by
    intro h1 h2
    simp only [List.getElem?_cons_zero, Option.some.injEq] at h1 h2
    subst h1; subst h2
    simp
  | x :: t, 0, j + 1, a, b => by
    intro h1 h2
    simp only [List.getElem?_cons_zero, Option.some.injEq,
      List.getElem?_cons_succ] at h1 h2
    subst h1
    simpa using cons_set_perm x t j b h2
  | x :: t, i + 1, 0, a, b => by
    intro h1 h2
    simp only [List.getElem?_cons_zero, Option.some.injEq,
      List.getElem?_cons_succ] at h1 h2
    subst h2
    simpa using cons_set_perm x t i a h1
  | x :: t, i + 1, j + 1, a, b => by
    intro h1 h2
    simp only [List.getElem?_cons_succ] at h1 h2
    simpa using (set_set_perm t i j a b h1 h2).cons x

/-- `listSwap` permutes its input (for any indices). -/
theorem listSwap_perm (l : List Track) (i j : Nat) : (listSwap l i j).Perm l := by
  unfold listSwap
  split
  next a b h1 h2 => exact set_set_perm l i j a b h1 h2
  next => exact List.Perm.refl l

/-- `listSwap` preserves length. -/
theorem listSwap_length (l : List Track) (i j : Nat) :
    (listSwap l i j).length = l.length :=
  (listSwap_perm l i j).length_eq

/-- Every stage of the Fisher-Yates loop permutes its input. -/
theorem shuffleStep_perm (rand : Nat → Nat) :
    ∀ (n : Nat) (l : List Track), (shuffleStep rand n l).Perm l
  | 0, l => List.Perm.refl l
  | n + 1, l =>
    (shuffleStep_perm rand n (listSwap l (n + 1) (rand (n + 1)))).trans
      (listSwap_perm l (n + 1) (rand (n + 1)))

/-- `_shuffleArray` returns a permutation of its input, whatever indices the
random source chooses. -/
theorem shuffleArray_perm (rand : Nat → Nat) (l : List Track) :
    (shuffleArray rand l).Perm l :=
  shuffleStep_perm rand (l.length - 1) l

/-- `_shuffleArray` preserves length. -/
theorem shuffleArray_length (rand : Nat → Nat) (l : List Track) :
    (shuffleArray rand l).length = l.length :=
  (shuffleArray_perm rand l).length_eq

/-- `findIndex` returns `-1` or a valid index. -/
theorem jsFindIndex_cases (p : Track → Bool) : ∀ l : List Track,
    jsFindIndex p l = -1 ∨
      (0 ≤ jsFindIndex p l ∧ jsFindIndex p l < (l.length : Int))
  | [] => Or.inl rfl
  | x :: xs => by
    unfold jsFindIndex
    split
    · right
      constructor
      · exact le_refl 0
      · simp only [List.length_cons]
        omega
    · rcases jsFindIndex_cases p xs with h | ⟨h1, h2⟩
      · simp [h]
      · have hne : jsFindIndex p xs ≠ -1 := by omega
        simp only [hne, if_false, List.length_cons]
        right
        push_cast
        omega

/-! ### Characterization lemmas for the transport operations -/

/-- Two states agreeing on the queue fields have the same active ordering. -/
theorem getQueue_congr {s t : PlayerState} (hq : t.queue = s.queue)
    (hsq : t.shuffledQueue = s.shuffledQueue) (hsh : t.shuffle = s.shuffle) :
    getQueue t = getQueue s := by
  unfold getQueue
  rw [hq, hsq, hsh]

/-- `playIndex` with an out-of-range index is a no-op with no sink command. -/
theorem playIndex_invalid (s : PlayerState) (i : Int) (o : Option Nat)
    (h : i < 0 ∨ ((getQueue s).length : Int) ≤ i) : playIndex s i o = (s, []) := by
  unfold playIndex
  simp [h]

/-- `playIndex` with a valid index sets `currentIndex` to it and leaves the
queue fields, the repeat mode and the play position untouched, whatever the
outcome of the load. -/
theorem playIndex_valid (s : PlayerState) (i : Int) (o : Option Nat)
    (h0 : 0 ≤ i) (h1 : i < ((getQueue s).length : Int)) :
    (playIndex s i o).1.currentIndex = i ∧
    (playIndex s i o).1.queue = s.queue ∧
    (playIndex s i o).1.shuffledQueue = s.shuffledQueue ∧
    (playIndex s i o).1.shuffle = s.shuffle ∧
    (playIndex s i o).1.repeatMode = s.repeatMode ∧
    (playIndex s i o).1.audioCurrentTime = s.audioCurrentTime := by
  have hcond : ¬(i < 0 ∨ ((getQueue s).length : Int) ≤ i) := by omega
  unfold playIndex
  simp only [hcond, if_false]
  split
  · simp
  · split
    · simp
    · split <;> simp

/-- `getCurrentTrack` returns `none` only outside the valid range. -/
theorem getCurrentTrack_none {s : PlayerState}
    (h : getCurrentTrack s = Option.none) :
    ¬(0 ≤ s.currentIndex ∧ s.currentIndex < ((getQueue s).length : Int)) := by
  unfold getCurrentTrack at h
  split at h
  · next hc =>
    exfalso
    rw [List.getElem?_eq_none_iff] at h
    omega
  · assumption

/-- `getCurrentTrack` returns `some` only at a valid index. -/
theorem getCurrentTrack_some {s : PlayerState} {cur : Track}
    (h : getCurrentTrack s = some cur) :
    0 ≤ s.currentIndex ∧ s.currentIndex < ((getQueue s).length : Int) := by
  unfold getCurrentTrack at h
  split at h
  · assumption
  · exact absurd h (by simp)

/-! ### Preservation of the §3 invariant by every operation -/

theorem inv_playIndex (s : PlayerState) (i : Int) (o : Option Nat)
    (h : Inv s) : Inv (playIndex s i o).1 := by
  by_cases hv : i < 0 ∨ ((getQueue s).length : Int) ≤ i
  · rw [playIndex_invalid s i o hv]
    exact h
  · push_neg at hv
    obtain ⟨hc, hq, hsq, hsh, _, _⟩ := playIndex_valid s i o hv.1 hv.2
    have hgq : getQueue (playIndex s i o).1 = getQueue s :=
      getQueue_congr hq hsq hsh
    constructor
    · right
      rw [hc, hgq]
      exact hv
    · unfold SameLen
      rw [hq, hsq]
      exact h.2

theorem inv_play (s : PlayerState) (o : Option Nat) (h : Inv s) :
    Inv (play s o).1 := by
  unfold play
  split
  · exact inv_playIndex s 0 o h
  · split <;> exact h

theorem inv_next (s : PlayerState) (o : Option Nat) (h : Inv s) :
    Inv (next s o).1 := by
  unfold next
  split
  · exact inv_playIndex s _ o h
  · exact h

theorem inv_previous (s : PlayerState) (o : Option Nat) (h : Inv s) :
    Inv (previous s o).1 := by
  unfold previous
  split
  · exact h
  · split
    · exact inv_playIndex s _ o h
    · exact h

theorem inv_handleEnded (s : PlayerState) (o : Option Nat) (h : Inv s) :
    Inv (handleEnded s o).1 := by
  unfold handleEnded
  split
  · exact inv_play { s with audioCurrentTime := 0 } o h
  · split
    · exact inv_next s o h
    · split
      · exact inv_playIndex s 0 o h
      · exact h

theorem inv_setQueue (s : PlayerState) (tracks : List Track)
    (rand : Nat → Nat) : Inv (setQueue s tracks rand) := by
  constructor
  · left
    rfl
  · unfold SameLen setQueue
    simp [shuffleArray_length]

theorem inv_addToQueue (s : PlayerState) (tracks : List Track)
    (rand : Nat → Nat) (h : Inv s) : Inv (addToQueue s tracks rand) := by
  obtain ⟨hidx, hlen⟩ := h
  unfold SameLen at hlen
  constructor
  · rcases hidx with h1 | ⟨h1, h2⟩
    · left
      exact h1
    · right
      refine ⟨h1, ?_⟩
      unfold getQueue at h2 ⊢
      unfold addToQueue
      by_cases hs : s.shuffle
      · simp only [hs, if_true] at h2 ⊢
        rw [shuffleArray_length, List.length_append]
        push_cast
        omega
      · simp [hs] at h2 ⊢
        omega
  · unfold SameLen addToQueue
    simp [shuffleArray_length]

theorem inv_clearQueue (s : PlayerState) : Inv (clearQueue s) := by
  constructor
  · left
    rfl
  · rfl

theorem inv_setRepeat (s : PlayerState) (m : RepeatMode) (h : Inv s) :
    Inv (setRepeat s m) := h

theorem inv_setVolume (s : PlayerState) (v : ℚ) (h : Inv s) :
    Inv (setVolume s v) := h

theorem inv_toggleShuffle (s : PlayerState) (rand : Nat → Nat) (h : Inv s) :
    Inv (toggleShuffle s rand) := by
  obtain ⟨hidx, hlen⟩ := h
  unfold SameLen at hlen
  simp only [toggleShuffle]
  split
  · -- enabling branch: the flipped flag is true, so the old flag was false
    next hsh =>
    have hsf : s.shuffle = false := by
      simpa using hsh
    split
    · -- `getCurrentTrack` (read from the stale shuffled ordering) is `none`
      next hcur =>
      have hnone := getCurrentTrack_none hcur
      simp only [getQueue, hsh, if_true] at hnone
      have hci : s.currentIndex = -1 := by
        rcases hidx with h1 | ⟨h1, h2⟩
        · exact h1
        · exfalso
          apply hnone
          simp only [getQueue, hsf, if_false] at h2
          exact ⟨h1, by push_cast at h2 ⊢; omega⟩
      exact ⟨Or.inl hci, by simp [SameLen, shuffleArray_length]⟩
    · -- a current track was found (in the stale shuffled ordering)
      next cur hcur =>
      have hsome := getCurrentTrack_some hcur
      simp only [getQueue, hsh, if_true] at hsome
      have hlen2 : 0 < s.queue.length := by
        rcases hsome with ⟨h1, h2⟩
        omega
      constructor
      · right
        constructor
        · split <;> exact le_refl 0
        · split <;>
            · simp only [getQueue, hsh, if_true, listSwap_length,
                shuffleArray_length]
              omega
      · unfold SameLen
        split <;> simp [listSwap_length, shuffleArray_length]
  · -- disabling branch: the flipped flag is false, so the old flag was true
    next hsh =>
    have hst : s.shuffle = true := by
      simpa using hsh
    split
    · -- current track (read from the canonical queue) is `none`
      next hcur =>
      have hnone := getCurrentTrack_none hcur
      simp [getQueue, hst] at hnone
      have hci : s.currentIndex = -1 := by
        rcases hidx with h1 | ⟨h1, h2⟩
        · exact h1
        · exfalso
          simp [getQueue, hst] at h2
          have := hnone h1
          push_cast at h2 this
          omega
      exact ⟨Or.inl hci, hlen⟩
    · next cur hcur =>
      constructor
      · rcases jsFindIndex_cases (fun t => t.id == cur.id) s.queue with
          hf | ⟨hf1, hf2⟩
        · left
          simpa [getQueue] using hf
        · right
          simp only [getQueue]
          simp [hst]
          omega
      · exact hlen

/-- The resume path of `play()` (something already selected, or queue empty):
it only issues the sink play command. -/
theorem play_resume (s : PlayerState) (o : Option Nat)
    (h : ¬(s.currentIndex < 0 ∧ 0 < s.queue.length)) :
    (play s o).1.currentIndex = s.currentIndex ∧
    (play s o).1.audioCurrentTime = s.audioCurrentTime ∧
    (play s o).2 = [Event.sinkPlay] := by
  unfold play
  rw [if_neg h]
  cases o <;> simp

/-- Player in repeat-one mode with track A selected, used as a witness input. -/
def stateRepOne : PlayerState :=
  { stateSelA with repeatMode := RepeatMode.one }

/-- Player with queue `[A, B]` and nothing selected, used as a witness input. -/
def stateNoneSel : PlayerState :=
  { stateSelA with currentIndex := -1 }

/-! ### The claims -/

/-- Claim C1 is refuted by the code (code bug): enabling shuffle is supposed
to keep the selected track selected at position 0, but `toggleShuffle` flips
the shuffle flag before reading `getCurrentTrack()`, so the track it pins at
position 0 is read from the stale shuffled ordering at the canonical index.
Concretely: canonical queue `[A, B]`, stale shuffled ordering `[B, A]`,
shuffle off, track A selected at canonical index 0; after enabling shuffle
(with the identity random choices) the selected track is B, not A. -/
theorem toggleShuffle_enable_changes_selection :
    getCurrentTrack stateSelA = some trackA ∧
    getCurrentTrack (toggleShuffle stateSelA randId) = some trackB ∧
    trackA ≠ trackB := by
  decide

/-- Claim C2 is refuted by the code (code bug): toggling shuffle twice is
supposed to restore the selected track identity, but on disabling, the code
reads `getCurrentTrack()` after flipping the flag, so it searches `queue` for
the track at `currentIndex` of the canonical queue rather than of the
shuffled queue. Concretely: canonical queue `[A, B]`, shuffled `[A, B]`,
track B selected at canonical index 1; after enable-then-disable the selected
track is A, not B. -/
theorem toggleShuffle_twice_changes_selection :
    getCurrentTrack stateSelB = some trackB ∧
    getCurrentTrack (toggleShuffle (toggleShuffle stateSelB randId) randId) =
      some trackA ∧
    trackB ≠ trackA := by
  decide

/-- Claim C3: for a valid index, `playIndex(i)` sets `activeIndex = i`
whatever the eventual load outcome (so a failure does not roll it back), and
for an out-of-range index it is a complete no-op emitting no sink command. -/
theorem playIndex_sets_index_or_noop (s : PlayerState) (i : Int)
    (o : Option Nat) :
    (0 ≤ i → i < ((getQueue s).length : Int) →
      (playIndex s i o).1.currentIndex = i) ∧
    (i < 0 ∨ ((getQueue s).length : Int) ≤ i → playIndex s i o = (s, [])) := by
  constructor
  · intro h0 h1
    exact (playIndex_valid s i o h0 h1).1
  · intro h
    exact playIndex_invalid s i o h

theorem playIndex_sets_index_or_noop_witness :
    (playIndex stateSelA 1 (some 0)).1.currentIndex = 1 ∧
    playIndex stateSelA 5 Option.none = (stateSelA, []) :=
  ⟨(playIndex_sets_index_or_noop stateSelA 1 (some 0)).1 (by decide) (by decide),
    (playIndex_sets_index_or_noop stateSelA 5 Option.none).2 (by decide)⟩

/-- Claim C4: the ended transition fires the ended notification first; then
with repeat one the current track restarts from position 0 with the index
unchanged and the sink is told to play; else with a next track it advances to
`activeIndex + 1`; else with repeat all and a non-empty queue it goes to
index 0; else nothing further happens. -/
theorem handleEnded_transition_order (s : PlayerState) (o : Option Nat)
    (hci : 0 ≤ s.currentIndex) (hwf : SameLen s) :
    (handleEnded s o).2.head? = some Event.ended ∧
    (s.repeatMode = RepeatMode.one →
      (handleEnded s o).1.currentIndex = s.currentIndex ∧
      (handleEnded s o).1.audioCurrentTime = 0 ∧
      Event.sinkPlay ∈ (handleEnded s o).2) ∧
    (s.repeatMode ≠ RepeatMode.one → hasNext s = true →
      (handleEnded s o).1.currentIndex = s.currentIndex + 1) ∧
    (s.repeatMode = RepeatMode.all → hasNext s = false → s.queue ≠ [] →
      (handleEnded s o).1.currentIndex = 0) ∧
    (s.repeatMode ≠ RepeatMode.one → hasNext s = false →
      ¬(s.repeatMode = RepeatMode.all ∧ s.queue ≠ []) →
      handleEnded s o = (s, [Event.ended])) := by
  have hq : 0 < s.queue.length → 0 < ((getQueue s).length : Int) := by
    intro hpos
    unfold SameLen at hwf
    unfold getQueue
    split <;> omega
  refine ⟨?_, ?_, ?_, ?_, ?_⟩
  · unfold handleEnded
    split
    · simp
    · split
      · simp
      · split <;> simp
  · intro h1
    unfold handleEnded
    rw [if_pos h1]
    have hres := play_resume { s with audioCurrentTime := 0 } o
      (by simp; omega)
    refine ⟨hres.1, ?_, ?_⟩
    · rw [hres.2.1]
    · simp [hres.2.2]
  · intro h1 h2
    unfold handleEnded
    rw [if_neg h1, if_pos h2]
    unfold next
    rw [if_pos h2]
    have hlt : s.currentIndex + 1 < ((getQueue s).length : Int) := by
      simp only [hasNext, decide_eq_true_eq] at h2
      omega
    exact (playIndex_valid s (s.currentIndex + 1) o (by omega) hlt).1
  · intro h1 h2 h3
    unfold handleEnded
    rw [if_neg (by simp [h1]), if_neg (by simp [h2]),
      if_pos ⟨h1, List.length_pos.mpr h3⟩]
    exact (playIndex_valid s 0 o (le_refl 0)
      (hq (List.length_pos.mpr h3))).1
  · intro h1 h2 h3
    unfold handleEnded
    rw [if_neg h1, if_neg (by simp [h2]), if_neg (by
      intro hc
      exact h3 ⟨hc.1, by have := hc.2; intro he; rw [he] at this; simp at this⟩)]

theorem handleEnded_transition_order_witness :
    (handleEnded stateRepOne (some 0)).2.head? = some Event.ended ∧
    (handleEnded stateRepOne (some 0)).1.currentIndex = 0 := by
  have h := handleEnded_transition_order stateRepOne (some 0) (by decide)
    (by unfold SameLen; decide)
  exact ⟨h.1, ((h.2.1 (by decide)).1).trans (by decide)⟩

/-- Claim C5: every transport and queue operation, whatever its outcome,
preserves the invariant that a non-none `activeIndex` is a valid index into
the active ordering (together with the companion invariant that the two
orderings have equal length, which every reachable state satisfies). -/
theorem operations_preserve_index_invariant (s : PlayerState)
    (tracks : List Track) (rand : Nat → Nat) (i : Int) (o : Option Nat)
    (m : RepeatMode) (h : Inv s) :
    Inv (setQueue s tracks rand) ∧ Inv (addToQueue s tracks rand) ∧
    Inv (clearQueue s) ∧ Inv (playIndex s i o).1 ∧ Inv (play s o).1 ∧
    Inv (next s o).1 ∧ Inv (previous s o).1 ∧ Inv (toggleShuffle s rand) ∧
    Inv (setRepeat s m) ∧ Inv (handleEnded s o).1 :=
  ⟨inv_setQueue s tracks rand, inv_addToQueue s tracks rand h,
    inv_clearQueue s, inv_playIndex s i o h, inv_play s o h, inv_next s o h,
    inv_previous s o h, inv_toggleShuffle s rand h, inv_setRepeat s m h,
    inv_handleEnded s o h⟩

theorem operations_preserve_index_invariant_witness :
    Inv stateSelA ∧ Inv (toggleShuffle stateSelA randId) := by
  have hs : Inv stateSelA := by
    unfold Inv IndexOK SameLen getQueue
    refine ⟨Or.inr ?_, by decide⟩
    decide
  exact ⟨hs, (operations_preserve_index_invariant stateSelA [] randId 0
    Option.none RepeatMode.none hs).2.2.2.2.2.2.2.1⟩

/-- Claim C6: `setQueue(T)` installs `T` as the canonical queue exactly in
order, regenerates the shuffled ordering by the Fisher-Yates loop (which is a
permutation of `T` whatever indices the random source picks), and resets the
selection to none. -/
theorem setQueue_canonical_perm_reset (s : PlayerState) (tracks : List Track)
    (rand : Nat → Nat) :
    (setQueue s tracks rand).queue = tracks ∧
    (setQueue s tracks rand).shuffledQueue = shuffleArray rand tracks ∧
    (setQueue s tracks rand).shuffledQueue.Perm tracks ∧
    (setQueue s tracks rand).currentIndex = -1 :=
  ⟨rfl, rfl, shuffleArray_perm rand tracks, rfl⟩

/-- Claim C7: `previous()` restarts the current track (position to 0, index
unchanged) when more than 3 seconds in; otherwise it steps to the previous
index when one exists and is a no-op when not. -/
theorem previous_threshold_spec (s : PlayerState) (o : Option Nat) :
    (3 < s.audioCurrentTime →
      previous s o = ({ s with audioCurrentTime := 0 }, [Event.sinkSeek 0]) ∧
      (previous s o).1.currentIndex = s.currentIndex) ∧
    (¬3 < s.audioCurrentTime → hasPrevious s = true →
      previous s o = playIndex s (s.currentIndex - 1) o) ∧
    (¬3 < s.audioCurrentTime → hasPrevious s = false →
      previous s o = (s, [])) := by
  refine ⟨?_, ?_, ?_⟩
  · intro h
    unfold previous
    rw [if_pos h]
    exact ⟨rfl, rfl⟩
  · intro h hp
    unfold previous
    rw [if_neg h, if_pos hp]
  · intro h hp
    unfold previous
    rw [if_neg h, if_neg (by simp [hp])]

theorem previous_threshold_spec_witness :
    previous { stateSelB with audioCurrentTime := 5 } Option.none =
      ({ stateSelB with audioCurrentTime := 0 }, [Event.sinkSeek 0]) ∧
    previous stateSelB Option.none = playIndex stateSelB 0 Option.none := by
  constructor
  · exact ((previous_threshold_spec
      { stateSelB with audioCurrentTime := 5 } Option.none).1 (by decide)).1
  · have h := (previous_threshold_spec stateSelB Option.none).2.1
      (by decide) (by decide)
    simpa using h

/-- Claim C8: a play failure inside `playIndex` fires the error notification
with the failure detail as the last event, after the single load and play
commands (no retry, no advance), and leaves both orderings untouched with
`currentIndex` still at the selected index; the sink error listener fires the
error notification with the detail and changes no state. -/
theorem playback_error_no_advance (s : PlayerState) (i : Int) (d e : Nat)
    (track : Track) (url : String)
    (h0 : 0 ≤ i) (h1 : i < ((getQueue s).length : Int))
    (ht : (getQueue s)[i.toNat]? = some track)
    (hu : track.streamUrl = some url) :
    playIndex s i (some d) =
      ({ s with currentIndex := i, audioSrc := some url },
        [Event.sinkLoad url, Event.sinkPlay, Event.error d]) ∧
    handleError s e = (s, [Event.error e]) := by
  constructor
  · have hcond : ¬(i < 0 ∨ ((getQueue s).length : Int) ≤ i) := by omega
    simp [playIndex, hcond, ht, hu]
  · rfl

theorem playback_error_no_advance_witness :
    playIndex stateSelA 0 (some 7) =
      ({ stateSelA with currentIndex := 0, audioSrc := some "u0" },
        [Event.sinkLoad "u0", Event.sinkPlay, Event.error 7]) ∧
    handleError stateSelA 3 = (stateSelA, [Event.error 3]) :=
  playback_error_no_advance stateSelA 0 7 3 trackA "u0" (by decide) (by decide)
    (by decide) (by decide)

/-- Claim C9: `setVolume(v)` stores exactly the clamp of `v` to `[0, 1]`. -/
theorem setVolume_clamps (s : PlayerState) (v : ℚ) :
    (setVolume s v).volume = max 0 (min 1 v) :=
  rfl

/-- Claim C10: with nothing selected (index -1) and a non-empty queue,
`hasNext()` is true, so `next()` is not a no-op: it runs `playIndex(0)` and
the selection lands on index 0 of the active ordering. -/
theorem next_from_none_plays_first (s : PlayerState) (o : Option Nat)
    (h1 : s.currentIndex = -1) (h2 : s.queue ≠ []) (hwf : SameLen s) :
    hasNext s = true ∧ next s o = playIndex s 0 o ∧
    (next s o).1.currentIndex = 0 := by
  have hlen : 0 < ((getQueue s).length : Int) := by
    have hqp : 0 < s.queue.length := List.length_pos.mpr h2
    unfold SameLen at hwf
    unfold getQueue
    split <;> omega
  have hn : hasNext s = true := by
    simp only [hasNext, decide_eq_true_eq]
    omega
  have heq : next s o = playIndex s 0 o := by
    unfold next
    rw [if_pos hn, h1]
    norm_num
  refine ⟨hn, heq, ?_⟩
  rw [heq]
  exact (playIndex_valid s 0 o (le_refl 0) hlen).1

theorem next_from_none_plays_first_witness :
    hasNext stateNoneSel = true ∧
    (next stateNoneSel Option.none).1.currentIndex = 0 := by
  have h := next_from_none_plays_first stateNoneSel Option.none (by decide)
    (by decide) (by unfold SameLen; decide)
  exact ⟨h.1, h.2.2⟩

end Somesonic
